import Mathlib

/-!
Verification development for the RCON client in src/rcon.ts.

Modelling conventions (shallow embedding):
- Byte buffers (Uint8Array values) are lists of naturals; every byte of a
  real Uint8Array is below 256.
- JavaScript strings are identified with their UTF-8 byte sequences, so
  TextEncoder.encode and TextDecoder.decode are both the identity on the
  modelled byte lists.
- DataView.getInt32(off, true) is modelled by dropping off bytes and reading
  four little-endian bytes as a signed 32-bit integer; when fewer than four
  bytes remain in the (exact) underlying buffer the real call throws a
  RangeError, modelled as the absent case of an Option (and an error flag in
  the packet loop).  In the source every working buffer except the very
  first raw chunk of a read is produced by concat or slice and is therefore
  exact.
- Promises are modelled by an explicit settlement state; settling an already
  settled promise is a no-op, as in JavaScript.  Resolutions and rejections
  delivered to callers are recorded as an ordered event list.
- The Map of pending requests is modelled as an association list; Map.set
  replaces in place (preserving iteration order), Map.delete removes the
  key, forEach iterates in insertion order.
-/

/-- Little-endian signed 32-bit read of four byte values, as performed by
DataView.getInt32 with littleEndian set; bytes of a real Uint8Array are
below 256. -/
def toInt32 (b0 b1 b2 b3 : Nat) : Int :=
  let u : Nat := b0 + 256 * b1 + 65536 * b2 + 16777216 * b3
  if u < 2147483648 then (u : Int) else (u : Int) - 4294967296

/-- Little-endian 4-byte encoding of a signed 32-bit integer, as written by
DataView.setInt32 (which wraps its argument modulo 2^32). -/
def int32LE (x : Int) : List Nat :=
  let u : Nat := (x % 4294967296).toNat
  [u % 256, u / 256 % 256, u / 65536 % 256, u / 16777216 % 256]

/-- Reading a 32-bit little-endian signed integer from the front of a byte
list; none models the RangeError DataView.getInt32 raises when fewer than
four bytes remain in the buffer. -/
def getInt32? : List Nat → Option Int
  | b0 :: b1 :: b2 :: b3 :: _ => some (toInt32 b0 b1 b2 b3)
  | _ => none

/-- Sentinel payload marker compared against incoming fragments
(src/rcon.ts line 4: FrameBuffer = Uint8Array [0, 1, 0, 0]). -/
def FrameBuffer : List Nat := [0, 1, 0, 0]

/-- Packet type constants (src/rcon.ts lines 6-11). -/
def PacketType.COMMAND : Int := 2

/-- Packet type AUTH = 0x03. -/
def PacketType.AUTH : Int := 3

/-- Packet type RESPONSE_VALUE = 0x00. -/
def PacketType.RESPONSE_VALUE : Int := 0

/-- Packet type RESPONSE_AUTH = 0x02. -/
def PacketType.RESPONSE_AUTH : Int := 2

/-- Error values thrown or used for rejection in src/rcon.ts; writeFailed
stands for an arbitrary transport write exception caught in send. -/
inductive RconError where
  | badIp
  | badPassword
  | connectionClosed
  | readEOF
  | writeFailed (code : Nat)
  deriving DecidableEq

/-- Settlement state of a one-shot promise; settling an already settled
promise is a no-op in JavaScript. -/
inductive PromiseState where
  | pending
  | resolvedP
  | rejectedP (e : RconError)
  deriving DecidableEq

/-- Observable completions delivered to callers (promise resolutions and
rejections), in the order the source performs them. -/
inductive Event where
  | authResolved
  | authRejected (e : RconError)
  | requestResolved (id : Int) (text : List Nat)
  | requestRejected (id : Int) (e : RconError)
  deriving DecidableEq

/-- A pending command request (class Request, src/rcon.ts lines 34-41): the
accumulated response bytes; the resolve/reject continuations are modelled by
the Event list. -/
structure Request where
  data : List Nat
  deriving DecidableEq

/-- The Map of pending requests keyed by request id, as an association
list in insertion order. -/
def ReqMap : Type := List (Int × Request)

instance : DecidableEq ReqMap := by
  unfold ReqMap
  infer_instance

/-- Map.get: the value stored at a key, if present. -/
def mapGet : ReqMap → Int → Option Request
  | [], _ => none
  | (k, v) :: rest, key => if k = key then some v else mapGet rest key

/-- Map.set: replace the value at an existing key in place (iteration order
preserved), or append a new entry. -/
def mapSet : ReqMap → Int → Request → ReqMap
  | [], key, v => [(key, v)]
  | (k, w) :: rest, key, v =>
    if k = key then (key, v) :: rest else (k, w) :: mapSet rest key v

/-- Map.delete: remove the entry at a key. -/
def mapDelete : ReqMap → Int → ReqMap
  | [], _ => []
  | (k, w) :: rest, key =>
    if k = key then rest else (k, w) :: mapDelete rest key

/-- A decoded wire packet: request id, type, and payload bytes, as sliced
out in readChunk (src/rcon.ts lines 147-149). -/
structure Packet where
  id : Int
  type : Int
  payload : List Nat
  deriving DecidableEq

/-- Result of routing one decoded packet: the authentication slot, the
pending-request map, and the completions performed. -/
structure DispatchOut where
  authed : Option PromiseState
  requests : ReqMap
  events : List Event
  deriving DecidableEq

/-- Resolving the optional authentication promise (authed?.resolve()):
a pending promise becomes resolved and the caller observes the event; an
absent or settled promise is untouched. -/
def resolveAuth : Option PromiseState → Option PromiseState × List Event
  | some PromiseState.pending => (some PromiseState.resolvedP, [Event.authResolved])
  | a => (a, [])

/-- Rejecting the optional authentication promise (authed?.reject(e)). -/
def rejectAuth : Option PromiseState → RconError → Option PromiseState × List Event
  | some PromiseState.pending, e => (some (PromiseState.rejectedP e), [Event.authRejected e])
  | a, _ => (a, [])

/-- Routing of one decoded packet, the body of the readChunk loop at
src/rcon.ts lines 150-170: id -1 rejects the authentication slot with the
bad-password error; id 0 with type RESPONSE_AUTH resolves it; RESPONSE_VALUE
packets for a known pending id either resolve it with the accumulated data
(payload equal to FrameBuffer) and delete the entry, or append the payload
to the accumulated data; anything else is ignored. -/
def dispatch (authed : Option PromiseState) (requests : ReqMap) (p : Packet) :
    DispatchOut :=
  if p.id ≠ -1 then
    if p.type = PacketType.RESPONSE_AUTH ∧ p.id = 0 then
      let r := resolveAuth authed
      ⟨r.1, requests, r.2⟩
    else if p.type = PacketType.RESPONSE_VALUE then
      match mapGet requests p.id with
      | some req =>
        if FrameBuffer = p.payload then
          ⟨authed, mapDelete requests p.id, [Event.requestResolved p.id req.data]⟩
        else
          ⟨authed, mapSet requests p.id ⟨req.data ++ p.payload⟩, []⟩
      | none => ⟨authed, requests, []⟩
    else ⟨authed, requests, []⟩
  else
    let r := rejectAuth authed RconError.badPassword
    ⟨r.1, requests, r.2⟩

/-- Routing a sequence of decoded packets in order, accumulating the
events. -/
def dispatchAll (authed : Option PromiseState) (requests : ReqMap) :
    List Packet → DispatchOut
  | [] => ⟨authed, requests, []⟩
  | p :: ps =>
    let d := dispatch authed requests p
    let r := dispatchAll d.authed d.requests ps
    ⟨r.authed, r.requests, d.events ++ r.events⟩

example : dispatch (some PromiseState.pending) [] ⟨-1, 0, []⟩ =
    ⟨some (PromiseState.rejectedP RconError.badPassword), [],
      [Event.authRejected RconError.badPassword]⟩ := by decide

example : dispatch none [(5, ⟨[7]⟩)] ⟨5, 0, [1, 2]⟩ =
    ⟨none, [(5, ⟨[7, 1, 2]⟩)], []⟩ := by decide

example : dispatch none [(5, ⟨[7]⟩)] ⟨5, 0, [0, 1, 0, 0]⟩ =
    ⟨none, [], [Event.requestResolved 5 [7]]⟩ := by decide

/-- A packet sliced out of the front of a working buffer whose length field
decoded to len (src/rcon.ts lines 147-149): id at offset 4, type at offset
8, payload = data.slice(12, 12 + len - 10).  The getD defaults are never
reached, since the loop only decodes when at least len + 4 bytes with
len at least 10 are present. -/
def decodePacket (data : List Nat) (len : Int) : Packet :=
  ⟨(getInt32? (data.drop 4)).getD 0,
   (getInt32? (data.drop 8)).getD 0,
   (data.drop 12).take (len - 10).toNat⟩

/-- Result of one run of the readChunk while-loop: the updated
authentication slot, pending map and carry-over buffer, the completions
performed, the packets decoded and routed in order, and whether the loop
aborted with a RangeError (a getInt32 read past the end of the working
buffer). -/
structure LoopOut where
  authed : Option PromiseState
  requests : ReqMap
  outstandingData : Option (List Nat)
  events : List Event
  pkts : List Packet
  err : Bool
  deriving DecidableEq

/-- The readChunk while-loop (src/rcon.ts lines 141-179), structurally
recursive on a fuel bound.  Every decoded packet consumes len + 4 (at least
14) bytes of the working buffer, so fuel equal to the buffer length is
enough for the recursion never to hit the fuel-0 case with a nonempty
buffer; all theorems either pass exactly that fuel or carry the bound as a
hypothesis.  Branches, in source order: an empty buffer exits the loop; a
length read past the buffer end raises (err); a zero length prefix returns,
leaving the carry-over buffer unset; a complete frame (len at least 10 and
len + 4 bytes available) is sliced, routed via dispatch, and the loop
continues past it; otherwise the whole working buffer is stored as the
carry-over buffer and the loop breaks. -/
def readChunkLoopF : Nat → Option PromiseState → ReqMap → List Nat → LoopOut
  | 0, a, q, _ => ⟨a, q, none, [], [], false⟩
  | fuel + 1, a, q, data =>
    if data = [] then ⟨a, q, none, [], [], false⟩
    else
      match getInt32? data with
      | none => ⟨a, q, none, [], [], true⟩
      | some len =>
        if len = 0 then ⟨a, q, none, [], [], false⟩
        else if 10 ≤ len ∧ len + 4 ≤ (data.length : Int) then
          let p := decodePacket data len
          let d := dispatch a q p
          let r := readChunkLoopF fuel d.authed d.requests (data.drop (4 + len).toNat)
          ⟨r.authed, r.requests, r.outstandingData, d.events ++ r.events, p :: r.pkts, r.err⟩
        else ⟨a, q, some data, [], [], false⟩

/-- Connection state of one Rcon instance (src/rcon.ts lines 54-61): the
authentication slot, the transport handle (a token naming the underlying
socket, absent when disconnected), the carry-over buffer, and the map of
pending requests. -/
structure RconState where
  authed : Option PromiseState
  conn : Option Nat
  outstandingData : Option (List Nat)
  requests : ReqMap
  deriving DecidableEq

/-- Result of feeding chunks to readChunk: the new connection state, the
completions performed, the packets decoded and routed in order, and the
RangeError flag. -/
structure ChunkOut where
  state : RconState
  events : List Event
  pkts : List Packet
  err : Bool
  deriving DecidableEq

/-- readChunk (src/rcon.ts lines 135-180): prepend the carry-over buffer to
the incoming chunk (clearing it), then run the decode-and-dispatch loop.
The transport handle is untouched. -/
def readChunk (s : RconState) (chunk : List Nat) : ChunkOut :=
  let data := s.outstandingData.getD [] ++ chunk
  let r := readChunkLoopF data.length s.authed s.requests data
  ⟨⟨r.authed, s.conn, r.outstandingData, r.requests⟩, r.events, r.pkts, r.err⟩

/-- Feeding a sequence of chunks to readChunk, as the background read loop
does (src/rcon.ts lines 111-113).  A RangeError thrown by readChunk
propagates out of the for-await body, so no further chunk is processed. -/
def feedChunks (s : RconState) : List (List Nat) → ChunkOut
  | [] => ⟨s, [], [], false⟩
  | c :: cs =>
    let r := readChunk s c
    if r.err then ⟨r.state, r.events, r.pkts, true⟩
    else
      let r2 := feedChunks r.state cs
      ⟨r2.state, r.events ++ r2.events, r.pkts ++ r2.pkts, r2.err⟩

/-- Result of the pure decode loop, without the multiplexer: the decoded
packets in order, the retained carry-over buffer, and the RangeError
flag. -/
structure ReasmOut where
  pkts : List Packet
  buf : Option (List Nat)
  err : Bool
  deriving DecidableEq

/-- The decode part of the readChunk while-loop in isolation: identical
branch structure to readChunkLoopF, with the dispatch calls dropped (they
never touch the working buffer). -/
def reassembleF : Nat → List Nat → ReasmOut
  | 0, _ => ⟨[], none, false⟩
  | fuel + 1, data =>
    if data = [] then ⟨[], none, false⟩
    else
      match getInt32? data with
      | none => ⟨[], none, true⟩
      | some len =>
        if len = 0 then ⟨[], none, false⟩
        else if 10 ≤ len ∧ len + 4 ≤ (data.length : Int) then
          let r := reassembleF fuel (data.drop (4 + len).toNat)
          ⟨decodePacket data len :: r.pkts, r.buf, r.err⟩
        else ⟨[], some data, false⟩

/-- The pure decode loop at its exact fuel. -/
def reassemble (data : List Nat) : ReasmOut :=
  reassembleF data.length data

/-- Pure view of feeding one chunk: prepend the carry-over buffer and run
the decode loop. -/
def feedOnePure (buf : Option (List Nat)) (chunk : List Nat) : ReasmOut :=
  reassemble (buf.getD [] ++ chunk)

/-- Pure view of feeding a sequence of chunks, stopping at a RangeError. -/
def feedAllPure (buf : Option (List Nat)) : List (List Nat) → ReasmOut
  | [] => ⟨[], buf, false⟩
  | c :: cs =>
    let r := feedOnePure buf c
    if r.err then ⟨r.pkts, r.buf, true⟩
    else
      let r2 := feedAllPure r.buf cs
      ⟨r.pkts ++ r2.pkts, r2.buf, r2.err⟩

/-- The length field a frame declares, 0 when the frame is shorter than
four bytes. -/
def lenOf (f : List Nat) : Int :=
  (getInt32? f).getD 0

/-- A well-formed wire frame: its four leading bytes decode to a length of
at least 10 and the frame holds exactly 4 + length bytes. -/
def WFFrame (f : List Nat) : Prop :=
  getInt32? f = some (lenOf f) ∧ 10 ≤ lenOf f ∧ (f.length : Int) = 4 + lenOf f

instance : DecidablePred WFFrame := fun f => by
  unfold WFFrame
  infer_instance

/-- The packet a well-formed frame decodes to. -/
def framePacket (f : List Nat) : Packet :=
  decodePacket f (lenOf f)

/-- sendData (src/rcon.ts lines 198-211): the frame written for a request
id, a payload (a string, modelled by its UTF-8 bytes), and a packet type.
The source allocates a zeroed buffer of payload length + 14 and writes the
length field (payload length + 10) at offset 0, the id bytes at offset 4,
the type at offset 8, the payload at offset 12 and a zero 16-bit word at
offset payload length + 12; with a 4-byte id these writes are disjoint and
cover the buffer, so the frame is their concatenation.  The source receives
the id as its little-endian 4-byte array; here it is taken as the integer
those bytes denote, re-encoded by int32LE (int32LE_toInt32 below shows the
two forms interchangeable). -/
def sendDataBuffer (id : Int) (data : List Nat) (packetType : Int) : List Nat :=
  int32LE ((data.length : Int) + 10) ++ int32LE id ++ int32LE packetType ++ data ++ [0, 0]

/-- Registration step of send (src/rcon.ts lines 186-188): a fresh pending
entry with empty accumulated data is stored under the generated id. -/
def sendRegister (s : RconState) (idNumber : Int) : RconState :=
  { s with requests := mapSet s.requests idNumber ⟨[]⟩ }

/-- Write-failure handler of send (src/rcon.ts line 193): the pending entry
at the generated id, if present, is rejected with the caught error; nothing
else changes, and the entry stays in the map. -/
def sendWriteFailure (s : RconState) (idNumber : Int) (e : RconError) :
    RconState × List Event :=
  match mapGet s.requests idNumber with
  | some _ => (s, [Event.requestRejected idNumber e])
  | none => (s, [])

/-- The state- and caller-visible part of send (src/rcon.ts lines 182-196):
register the pending entry, then perform the two transport writes; writeErr
carries the first error those awaits threw, if any, in which case the
handler rejects that entry.  The connect call and the writes themselves are
transport effects outside the state. -/
def send (s : RconState) (idNumber : Int) (writeErr : Option RconError) :
    RconState × List Event :=
  let s1 := sendRegister s idNumber
  match writeErr with
  | none => (s1, [])
  | some e => sendWriteFailure s1 idNumber e

/-- disconnect (src/rcon.ts lines 127-133): close and drop the transport,
drop the authentication slot without settling it, reject every pending
request with the generic read EOF error in iteration order, and clear the
map.  The carry-over buffer is not touched. -/
def disconnect (s : RconState) : RconState × List Event :=
  (⟨none, none, s.outstandingData, []⟩,
   s.requests.map (fun kv => Event.requestRejected kv.1 RconError.readEOF))

/-- Teardown in the finally block of the background read loop (src/rcon.ts
lines 114-124), entered when the transport stream ends or throws: if the
loop's transport is still current, drop it, reject the authentication slot
with the connection-closed error and drop it, reject every pending request
with the connection-closed error in iteration order, and clear the map;
a superseded transport leaves the state untouched. -/
def readTeardown (s : RconState) (loopConn : Nat) : RconState × List Event :=
  if s.conn = some loopConn then
    let r := rejectAuth s.authed RconError.connectionClosed
    (⟨none, none, s.outstandingData, []⟩,
     r.2 ++ s.requests.map (fun kv => Event.requestRejected kv.1 RconError.connectionClosed))
  else (s, [])

example :
    readChunk ⟨none, some 0, none, [(1, ⟨[]⟩)]⟩
      [14, 0, 0, 0, 1, 0, 0, 0, 0, 0, 0, 0, 65, 66, 67, 68, 0, 0] =
    ⟨⟨none, some 0, none, [(1, ⟨[65, 66, 67, 68]⟩)]⟩, [],
      [⟨1, 0, [65, 66, 67, 68]⟩], false⟩ := by decide

/-- Decoding the four bytes written by setInt32 recovers any value in the
signed 32-bit range, with any trailing bytes ignored. -/
theorem getInt32?_int32LE (x : Int) (rest : List Nat)
    (h1 : -2147483648 ≤ x) (h2 : x < 2147483648) :
    getInt32? (int32LE x ++ rest) = some x := by
  simp only [int32LE, getInt32?, toInt32, List.cons_append, Option.some.injEq]
  split <;> omega

/-- Re-encoding the signed 32-bit value read from four bytes recovers the
bytes: the integer form and the 4-byte form of a request id are
interchangeable. -/
theorem int32LE_toInt32 (b0 b1 b2 b3 : Nat)
    (h0 : b0 < 256) (h1 : b1 < 256) (h2 : b2 < 256) (h3 : b3 < 256) :
    int32LE (toInt32 b0 b1 b2 b3) = [b0, b1, b2, b3] := by
  simp only [int32LE, toInt32, List.cons.injEq, and_true]
  split <;> refine ⟨by omega, by omega, by omega, by omega⟩

/-- The encoding of a 32-bit value is four bytes. -/
theorem int32LE_length (x : Int) : (int32LE x).length = 4 := rfl

/-- Every byte produced by setInt32 is below 256. -/
theorem int32LE_bytes_lt (x : Int) : ∀ b ∈ int32LE x, b < 256 := by
  simp only [int32LE, List.mem_cons, List.not_mem_nil, or_false]
  intro b hb
  rcases hb with h | h | h | h <;> omega

/-- A 32-bit read only looks at the first four bytes. -/
theorem getInt32?_append (a b : List Nat) (h : 4 ≤ a.length) :
    getInt32? (a ++ b) = getInt32? a := by
  match a, h with
  | b0 :: b1 :: b2 :: b3 :: t, _ => rfl

/-- Slicing a packet out of a frame only looks at the frame's own bytes. -/
theorem decodePacket_append (f rest : List Nat) (len : Int)
    (h10 : 10 ≤ len) (hlen : (f.length : Int) = 4 + len) :
    decodePacket (f ++ rest) len = decodePacket f len := by
  unfold decodePacket
  have h4 : (4 : Nat) ≤ f.length := by omega
  have h8 : (8 : Nat) ≤ f.length := by omega
  have h12 : (12 : Nat) ≤ f.length := by omega
  rw [List.drop_append_of_le_length h4, List.drop_append_of_le_length h8,
    List.drop_append_of_le_length h12,
    getInt32?_append _ _ (by simp [List.length_drop]; omega),
    getInt32?_append _ _ (by simp [List.length_drop]; omega),
    List.take_append_of_le_length (by simp [List.length_drop]; omega)]

/-- The decode loop on an empty buffer exits at once, at any fuel. -/
theorem reassembleF_nil (fuel : Nat) : reassembleF fuel [] = ⟨[], none, false⟩ := by
  cases fuel <;> rfl

/-- The decode loop does not depend on the fuel once the fuel covers the
buffer length: every decoded frame consumes at least 14 bytes. -/
theorem reassembleF_fuel (fuel fuel' : Nat) (data : List Nat)
    (h : data.length ≤ fuel) (h' : data.length ≤ fuel') :
    reassembleF fuel data = reassembleF fuel' data := by
  induction fuel generalizing fuel' data with
  | zero =>
    have : data = [] := List.length_eq_zero.mp (Nat.le_zero.mp h)
    subst this
    rw [reassembleF_nil, reassembleF_nil]
  | succ fuel ih =>
    rcases data with _ | ⟨b, bs⟩
    · rw [reassembleF_nil, reassembleF_nil]
    rcases fuel' with _ | fuel'
    · simp at h'
    simp only [reassembleF]
    rcases hg : getInt32? (b :: bs) with _ | len
    · rfl
    by_cases h0 : len = 0
    · simp [h0]
    simp only [h0, if_false]
    by_cases hc : 10 ≤ len ∧ len + 4 ≤ ((b :: bs).length : Int)
    · simp only [hc, if_true]
      have hdrop : ((b :: bs).drop (4 + len).toNat).length ≤ fuel := by
        simp only [List.length_drop]
        have := hc.1
        have := hc.2
        simp only [List.length_cons] at *
        omega
      have hdrop' : ((b :: bs).drop (4 + len).toNat).length ≤ fuel' := by
        simp only [List.length_drop]
        have := hc.1
        have := hc.2
        simp only [List.length_cons] at *
        omega
      rw [ih _ _ hdrop hdrop']
    · simp only [hc, if_false]

/-- One iteration of the decode loop over a well-formed frame followed by
anything: the frame's packet is decoded and the loop continues on the
remaining bytes. -/
theorem reassembleF_frame (fuel : Nat) (f rest : List Nat) (hwf : WFFrame f) :
    reassembleF (fuel + 1) (f ++ rest) =
      ⟨framePacket f :: (reassembleF fuel rest).pkts, (reassembleF fuel rest).buf,
        (reassembleF fuel rest).err⟩ := by
  obtain ⟨hsome, h10, hlen⟩ := hwf
  have hflen : 14 ≤ f.length := by omega
  have hne : ¬(f ++ rest = []) := by
    intro h
    have h2 : f.length + rest.length = 0 := by
      simpa [List.length_append] using congrArg List.length h
    omega
  have hg : getInt32? (f ++ rest) = some (lenOf f) := by
    rw [getInt32?_append _ _ (by omega), hsome]
  simp only [reassembleF, hne, if_false, hg]
  have h0 : ¬(lenOf f = 0) := by omega
  have hguard : 10 ≤ lenOf f ∧ lenOf f + 4 ≤ (((f ++ rest).length : Nat) : Int) := by
    refine ⟨h10, ?_⟩
    simp only [List.length_append]
    push_cast
    omega
  simp only [h0, if_false, hguard, if_true, decodePacket_append f rest (lenOf f) h10 hlen]
  have hdropeq : f.length = ((4 : Int) + lenOf f).toNat := by omega
  rw [List.drop_left' hdropeq]
  simp [framePacket]

/-- The decode loop on the empty buffer. -/
theorem reassemble_nil : reassemble [] = ⟨[], none, false⟩ := rfl

/-- The decode loop over a concatenation of well-formed frames followed by
a remainder: all the frames' packets in order, then whatever the loop does
on the remainder. -/
theorem reassembleF_flatten :
    ∀ (gs : List (List Nat)) (rem : List Nat) (fuel : Nat),
    (∀ f ∈ gs, WFFrame f) → gs.flatten.length + rem.length ≤ fuel →
    reassembleF fuel (gs.flatten ++ rem) =
      ⟨gs.map framePacket ++ (reassemble rem).pkts, (reassemble rem).buf,
        (reassemble rem).err⟩ := by
  intro gs
  induction gs with
  | nil =>
    intro rem fuel hwf hfuel
    simp only [List.flatten_nil, List.nil_append, List.map_nil]
    rw [reassembleF_fuel fuel rem.length rem (by simpa using hfuel) le_rfl]
    rfl
  | cons f fs ih =>
    intro rem fuel hwf hfuel
    have hwff := hwf f (List.mem_cons_self f fs)
    obtain ⟨hsome, h10, hlen⟩ := hwff
    rcases fuel with _ | fuel
    · exfalso
      simp only [List.flatten_cons, List.length_append] at hfuel
      omega
    rw [List.flatten_cons, List.append_assoc,
      reassembleF_frame fuel f (fs.flatten ++ rem) ⟨hsome, h10, hlen⟩,
      ih rem fuel (fun g hg => hwf g (List.mem_cons_of_mem f hg))
        (by simp only [List.flatten_cons, List.length_append] at hfuel; omega)]
    simp

/-- The decode loop consumes an exact concatenation of well-formed frames
completely, decoding each frame's packet in order without error. -/
theorem reassemble_flatten (gs : List (List Nat)) (hwf : ∀ f ∈ gs, WFFrame f) :
    reassemble gs.flatten = ⟨gs.map framePacket, none, false⟩ := by
  have h := reassembleF_flatten gs [] gs.flatten.length hwf (by simp)
  rw [List.append_nil] at h
  show reassembleF gs.flatten.length gs.flatten = _
  rw [h, reassemble_nil]
  simp

/-- A nonempty proper prefix of a well-formed frame holding at least the
four length bytes is retained whole by the decode loop as the carry-over
buffer. -/
theorem reassemble_partial (g rem : List Nat) (hwf : WFFrame g)
    (hpre : rem <+: g) (h4 : 4 ≤ rem.length) (hlt : rem.length < g.length) :
    reassemble rem = ⟨[], some rem, false⟩ := by
  obtain ⟨hsome, h10, hlen⟩ := hwf
  obtain ⟨t, ht⟩ := hpre
  have hne : ¬(rem = []) := by
    intro h
    rw [h] at h4
    simp at h4
  have hg : getInt32? rem = some (lenOf g) := by
    rw [← getInt32?_append rem t h4, ht, hsome]
  obtain ⟨n, hn⟩ : ∃ n, rem.length = n + 1 := ⟨rem.length - 1, by omega⟩
  show reassembleF rem.length rem = _
  rw [hn]
  simp only [reassembleF, hne, if_false, hg]
  have h0 : ¬(lenOf g = 0) := by omega
  have hguard : ¬(10 ≤ lenOf g ∧ lenOf g + 4 ≤ ((rem.length : Nat) : Int)) := by
    intro hc
    omega
  simp only [h0, if_false, hguard]

/-- A nonempty buffer shorter than the four length bytes makes the decode
loop raise (the modelled RangeError of getInt32 on an exact buffer). -/
theorem reassemble_short (rem : List Nat) (hne : rem ≠ []) (hlt : rem.length < 4) :
    reassemble rem = ⟨[], none, true⟩ := by
  have hg : getInt32? rem = none := by
    rcases rem with _ | ⟨a, _ | ⟨b, _ | ⟨c, _ | ⟨d, t⟩⟩⟩⟩
    · rfl
    · rfl
    · rfl
    · rfl
    · exfalso
      simp only [List.length_cons] at hlt
      omega
  obtain ⟨n, hn⟩ : ∃ n, rem.length = n + 1 := by
    rcases rem with _ | ⟨a, t⟩
    · exact absurd rfl hne
    · exact ⟨t.length, rfl⟩
  show reassembleF rem.length rem = _
  rw [hn]
  simp only [reassembleF, hne, if_false, hg]

/-- Any prefix of a concatenation of well-formed frames splits as the
frames it fully covers followed by a (possibly empty) proper prefix of the
next frame. -/
theorem prefix_frame_split :
    ∀ (frames : List (List Nat)) (P : List Nat),
    P <+: frames.flatten →
    ∃ gs rem fs, frames = gs ++ fs ∧ P = gs.flatten ++ rem ∧
      (rem = [] ∨ ∃ g fs2, fs = g :: fs2 ∧ rem <+: g ∧ rem.length < g.length) := by
  intro frames
  induction frames with
  | nil =>
    intro P hpre
    refine ⟨[], [], [], rfl, ?_, Or.inl rfl⟩
    simpa using List.prefix_nil.mp (by simpa using hpre)
  | cons f fs ih =>
    intro P hpre
    obtain ⟨t, ht⟩ := hpre
    by_cases hP : P.length < f.length
    · refine ⟨[], P, f :: fs, rfl, by simp, Or.inr ⟨f, fs, rfl, ?_, hP⟩⟩
      have hPeq : P = ((f :: fs).flatten).take P.length := by
        rw [← ht, List.take_left]
      rw [hPeq, List.flatten_cons, List.take_append_of_le_length (by omega)]
      exact List.take_prefix _ _
    · push_neg at hP
      have hPeq : P = ((f :: fs).flatten).take P.length := by
        rw [← ht, List.take_left]
      have hex : P = f ++ fs.flatten.take (P.length - f.length) := by
        conv_lhs => rw [hPeq]
        rw [List.flatten_cons, List.take_append_eq_append_take,
          List.take_of_length_le hP]
      obtain ⟨P2, hP2⟩ : ∃ P2, P = f ++ P2 := ⟨fs.flatten.take (P.length - f.length), hex⟩
      subst hP2
      have hpre2 : P2 <+: fs.flatten := by
        rw [List.flatten_cons, List.append_assoc] at ht
        exact ⟨t, List.append_cancel_left ht⟩
      obtain ⟨gs, rem, fs2, hfr, hP2eq, hrem⟩ := ih P2 hpre2
      exact ⟨f :: gs, rem, fs2, by simp [hfr], by simp [hP2eq, List.append_assoc], hrem⟩

/-- The carry-over buffer holding a byte list: none when there is nothing
carried over (the source never stores an empty outstandingData, since it is
only set from a nonempty working buffer). -/
def optOf : List Nat → Option (List Nat)
  | [] => none
  | a :: l => some (a :: l)

/-- No carry-over is the empty byte list. -/
theorem optOf_nil : optOf [] = none := rfl

/-- Reading back the carried-over bytes. -/
theorem optOf_getD (p : List Nat) : (optOf p).getD [] = p := by
  cases p <;> rfl

/-- Unfolding of the pure chunk feed on a cons. -/
theorem feedAllPure_cons (buf : Option (List Nat)) (c : List Nat) (cs : List (List Nat)) :
    feedAllPure buf (c :: cs) =
      if (feedOnePure buf c).err then
        ⟨(feedOnePure buf c).pkts, (feedOnePure buf c).buf, true⟩
      else
        ⟨(feedOnePure buf c).pkts ++ (feedAllPure (feedOnePure buf c).buf cs).pkts,
          (feedAllPure (feedOnePure buf c).buf cs).buf,
          (feedAllPure (feedOnePure buf c).buf cs).err⟩ := rfl

/-- Feeding one chunk on top of carried-over bytes runs the decode loop on
their concatenation. -/
theorem feedOnePure_optOf (pending c : List Nat) :
    feedOnePure (optOf pending) c = reassemble (pending ++ c) := by
  cases pending <;> rfl

/-- Chunk-boundary independence of the pure decode loop: feeding any
chunking of a concatenation of well-formed frames, starting from a
carry-over that is a proper prefix (holding at least the length field) of
the first remaining frame, decodes exactly the frames' packets in order,
provided no step of the feed raises. -/
theorem feedAllPure_frames :
    ∀ (chunks frames : List (List Nat)) (pending : List Nat),
    (∀ f ∈ frames, WFFrame f) →
    (pending = [] ∨ ∃ g fs, frames = g :: fs ∧ pending <+: g ∧
      4 ≤ pending.length ∧ pending.length < g.length) →
    pending ++ chunks.flatten = frames.flatten →
    (feedAllPure (optOf pending) chunks).err = false →
    (feedAllPure (optOf pending) chunks).pkts = frames.map framePacket := by
  intro chunks
  induction chunks with
  | nil =>
    intro frames pending hwf hpend hflat herr
    rcases hpend with rfl | ⟨g, fs, rfl, hpre, h4, hlt⟩
    · simp only [List.flatten_nil, List.nil_append] at hflat
      have hfr : frames = [] := by
        rcases frames with _ | ⟨f, fs⟩
        · rfl
        · exfalso
          obtain ⟨hsome, h10, hlen⟩ := hwf f (List.mem_cons_self f fs)
          have hz : f.length + fs.flatten.length = 0 := by
            simpa [List.length_append] using congrArg List.length hflat.symm
          omega
      subst hfr
      rfl
    · exfalso
      have hL := congrArg List.length hflat
      simp only [List.flatten_nil, List.append_nil, List.flatten_cons,
        List.length_append] at hL
      omega
  | cons c cs ih =>
    intro frames pending hwf hpend hflat herr
    have hpreP : (pending ++ c) <+: frames.flatten := by
      refine ⟨cs.flatten, ?_⟩
      have hassoc : (pending ++ c) ++ cs.flatten = pending ++ (c :: cs).flatten := by
        simp [List.append_assoc]
      exact hassoc.trans hflat
    obtain ⟨gs, rem, fs, hfr, hPeq, hrem⟩ := prefix_frame_split frames (pending ++ c) hpreP
    subst hfr
    have hwfgs : ∀ f ∈ gs, WFFrame f := fun f hf => hwf f (List.mem_append.mpr (Or.inl hf))
    have hwffs : ∀ f ∈ fs, WFFrame f := fun f hf => hwf f (List.mem_append.mpr (Or.inr hf))
    have hfeed1 : feedOnePure (optOf pending) c = reassemble (gs.flatten ++ rem) := by
      rw [feedOnePure_optOf, hPeq]
    have hflat2 : rem ++ cs.flatten = fs.flatten := by
      have h1 : gs.flatten ++ (rem ++ cs.flatten) = (pending ++ c) ++ cs.flatten := by
        rw [hPeq, List.append_assoc]
      have h2 : (pending ++ c) ++ cs.flatten = pending ++ (c :: cs).flatten := by
        simp [List.append_assoc]
      refine List.append_cancel_left (h1.trans ?_)
      rw [h2, hflat, List.flatten_append]
    have hra : reassemble (gs.flatten ++ rem) =
        ⟨gs.map framePacket ++ (reassemble rem).pkts, (reassemble rem).buf,
          (reassemble rem).err⟩ := by
      show reassembleF (gs.flatten ++ rem).length _ = _
      exact reassembleF_flatten gs rem _ hwfgs (by simp [List.length_append])
    by_cases hrem0 : rem = []
    · subst hrem0
      rw [reassemble_nil] at hra
      rw [feedAllPure_cons, hfeed1, hra]
      rw [feedAllPure_cons, hfeed1, hra] at herr
      simp only [List.append_nil] at herr ⊢
      simp only [Bool.false_eq_true, if_false] at herr ⊢
      have hihflat : ([] : List Nat) ++ cs.flatten = fs.flatten := by
        simpa using hflat2
      have hih := ih fs [] hwffs (Or.inl rfl) hihflat
      rw [optOf_nil] at hih
      rw [hih (by simpa using herr)]
      simp
    · rcases hrem with rfl | ⟨g, fs2, hfs, hpre, hlt⟩
      · exact absurd rfl hrem0
      subst hfs
      by_cases h4 : 4 ≤ rem.length
      · have hpart : reassemble rem = ⟨[], some rem, false⟩ :=
          reassemble_partial g rem (hwffs g (List.mem_cons_self g fs2)) hpre h4 hlt
        rw [hpart] at hra
        rw [feedAllPure_cons, hfeed1, hra]
        rw [feedAllPure_cons, hfeed1, hra] at herr
        simp only [Bool.false_eq_true, if_false] at herr ⊢
        have hopt : (some rem : Option (List Nat)) = optOf rem := by
          cases rem
          · exact absurd rfl hrem0
          · rfl
        rw [hopt] at herr ⊢
        have hih := ih (g :: fs2) rem hwffs
          (Or.inr ⟨g, fs2, rfl, hpre, h4, hlt⟩) hflat2
        rw [hih (by simpa using herr)]
        simp
      · push_neg at h4
        have hshort : reassemble rem = ⟨[], none, true⟩ :=
          reassemble_short rem hrem0 h4
        rw [hshort] at hra
        rw [feedAllPure_cons, hfeed1, hra] at herr
        simp at herr

/-- The multiplexer state never influences decoding: the packets, carry-over
buffer and error flag of the readChunk loop agree with the pure decode loop
at every fuel. -/
theorem readChunkLoopF_pure (fuel : Nat) :
    ∀ (a : Option PromiseState) (q : ReqMap) (data : List Nat),
    (readChunkLoopF fuel a q data).pkts = (reassembleF fuel data).pkts ∧
    (readChunkLoopF fuel a q data).outstandingData = (reassembleF fuel data).buf ∧
    (readChunkLoopF fuel a q data).err = (reassembleF fuel data).err := by
  induction fuel with
  | zero =>
    intro a q data
    exact ⟨rfl, rfl, rfl⟩
  | succ fuel ih =>
    intro a q data
    by_cases hd : data = []
    · subst hd
      exact ⟨rfl, rfl, rfl⟩
    · simp only [readChunkLoopF, reassembleF, hd, if_false]
      rcases hg : getInt32? data with _ | len
      · exact ⟨rfl, rfl, rfl⟩
      by_cases h0 : len = 0
      · simp [h0]
      simp only [h0, if_false]
      by_cases hc : 10 ≤ len ∧ len + 4 ≤ ((data.length : Nat) : Int)
      · simp only [hc, if_true]
        obtain ⟨hp, hb, he⟩ := ih (dispatch a q (decodePacket data len)).authed
          (dispatch a q (decodePacket data len)).requests (data.drop (4 + len).toNat)
        exact ⟨by simp [hp], by simp [hb], by simp [he]⟩
      · simp [hc]

/-- readChunk agrees with the pure one-chunk feed on packets, carry-over
buffer and error flag. -/
theorem readChunk_pure (s : RconState) (chunk : List Nat) :
    (readChunk s chunk).pkts = (feedOnePure s.outstandingData chunk).pkts ∧
    (readChunk s chunk).state.outstandingData = (feedOnePure s.outstandingData chunk).buf ∧
    (readChunk s chunk).err = (feedOnePure s.outstandingData chunk).err := by
  exact readChunkLoopF_pure (s.outstandingData.getD [] ++ chunk).length s.authed s.requests
    (s.outstandingData.getD [] ++ chunk)

/-- Unfolding of the chunk feed on a cons. -/
theorem feedChunks_cons (s : RconState) (c : List Nat) (cs : List (List Nat)) :
    feedChunks s (c :: cs) =
      if (readChunk s c).err then
        ⟨(readChunk s c).state, (readChunk s c).events, (readChunk s c).pkts, true⟩
      else
        ⟨(feedChunks (readChunk s c).state cs).state,
          (readChunk s c).events ++ (feedChunks (readChunk s c).state cs).events,
          (readChunk s c).pkts ++ (feedChunks (readChunk s c).state cs).pkts,
          (feedChunks (readChunk s c).state cs).err⟩ := rfl

/-- Feeding chunks through readChunk agrees with the pure chunk feed on
packets, carry-over buffer and error flag. -/
theorem feedChunks_pure (chunks : List (List Nat)) :
    ∀ (s : RconState),
    (feedChunks s chunks).pkts = (feedAllPure s.outstandingData chunks).pkts ∧
    (feedChunks s chunks).state.outstandingData = (feedAllPure s.outstandingData chunks).buf ∧
    (feedChunks s chunks).err = (feedAllPure s.outstandingData chunks).err := by
  induction chunks with
  | nil =>
    intro s
    exact ⟨rfl, rfl, rfl⟩
  | cons c cs ih =>
    intro s
    obtain ⟨hp, hb, he⟩ := readChunk_pure s c
    rw [feedChunks_cons, feedAllPure_cons]
    obtain ⟨hp2, hb2, he2⟩ := ih (readChunk s c).state
    rw [hb] at hp2 hb2 he2
    by_cases herr : (readChunk s c).err
    · rw [if_pos herr, if_pos (he ▸ herr)]
      exact ⟨by simp [hp], by simp [hb], by simp⟩
    · rw [if_neg herr, if_neg (he ▸ herr)]
      exact ⟨by simp [hp, hp2], by simp [hb2], by simp [he2]⟩

/-- Looking up the key just stored. -/
theorem mapGet_mapSet_self (q : ReqMap) (k : Int) (v : Request) :
    mapGet (mapSet q k v) k = some v := by
  induction q with
  | nil => simp [mapGet, mapSet]
  | cons kv rest ih =>
    by_cases h : kv.1 = k
    · simp [mapGet, mapSet, h]
    · simp [mapGet, mapSet, h, ih]

/-- Storing at one key does not change lookups at another. -/
theorem mapGet_mapSet_ne (q : ReqMap) (k k2 : Int) (v : Request) (h : k ≠ k2) :
    mapGet (mapSet q k v) k2 = mapGet q k2 := by
  induction q with
  | nil => simp [mapGet, mapSet, h]
  | cons kv rest ih =>
    by_cases hk : kv.1 = k
    · simp [mapGet, mapSet, hk, h]
    · simp only [mapSet, hk, if_false, mapGet]
      by_cases hk2 : kv.1 = k2
      · simp [hk2]
      · simp [hk2, ih]

/-- Storing the value already present changes nothing. -/
theorem mapSet_self (q : ReqMap) (k : Int) (v : Request)
    (h : mapGet q k = some v) : mapSet q k v = q := by
  induction q with
  | nil => simp [mapGet] at h
  | cons kv rest ih =>
    rcases kv with ⟨k1, v1⟩
    simp only [mapGet] at h
    simp only [mapSet]
    by_cases hk : k1 = k
    · rw [if_pos hk] at h
      rw [if_pos hk]
      injection h with hv
      subst hk
      subst hv
      rfl
    · rw [if_neg hk] at h
      rw [if_neg hk, ih h]

/-- Storing twice at a key keeps only the second value. -/
theorem mapSet_mapSet (q : ReqMap) (k : Int) (v w : Request) :
    mapSet (mapSet q k v) k w = mapSet q k w := by
  induction q with
  | nil => simp [mapSet]
  | cons kv rest ih =>
    by_cases hk : kv.1 = k
    · simp [mapSet, hk]
    · simp [mapSet, hk, ih]

/-- Deleting a key erases any value just stored at it. -/
theorem mapDelete_mapSet (q : ReqMap) (k : Int) (v : Request) :
    mapDelete (mapSet q k v) k = mapDelete q k := by
  induction q with
  | nil => simp [mapSet, mapDelete]
  | cons kv rest ih =>
    by_cases hk : kv.1 = k
    · simp [mapSet, mapDelete, hk]
    · simp [mapSet, mapDelete, hk, ih]

/-- Splitting a dispatch sequence. -/
theorem dispatchAll_append (xs ys : List Packet) :
    ∀ (a : Option PromiseState) (q : ReqMap),
    dispatchAll a q (xs ++ ys) =
      ⟨(dispatchAll (dispatchAll a q xs).authed (dispatchAll a q xs).requests ys).authed,
        (dispatchAll (dispatchAll a q xs).authed (dispatchAll a q xs).requests ys).requests,
        (dispatchAll a q xs).events ++
          (dispatchAll (dispatchAll a q xs).authed (dispatchAll a q xs).requests ys).events⟩ := by
  induction xs with
  | nil =>
    intro a q
    simp [dispatchAll]
  | cons x xs ih =>
    intro a q
    simp only [List.cons_append, dispatchAll, List.append_eq, ih, List.append_assoc]

/-- Routing a run of non-sentinel RESPONSE_VALUE fragments for a pending id
appends their payloads, in order, to the entry's accumulated data, emitting
nothing. -/
theorem dispatchAll_fragments (ps : List (List Nat)) :
    ∀ (a : Option PromiseState) (q : ReqMap) (id : Int) (d : List Nat),
    id ≠ -1 →
    mapGet q id = some ⟨d⟩ →
    (∀ p ∈ ps, p ≠ FrameBuffer) →
    dispatchAll a q (ps.map (fun pl => Packet.mk id PacketType.RESPONSE_VALUE pl)) =
      ⟨a, mapSet q id ⟨d ++ ps.flatten⟩, []⟩ := by
  induction ps with
  | nil =>
    intro a q id d hid hget hns
    simp [dispatchAll, mapSet_self q id ⟨d⟩ hget]
  | cons pl ps ih =>
    intro a q id d hid hget hns
    have hstep : dispatch a q (Packet.mk id PacketType.RESPONSE_VALUE pl) =
        ⟨a, mapSet q id ⟨d ++ pl⟩, []⟩ := by
      unfold dispatch
      rw [if_pos hid]
      have hna : ¬(PacketType.RESPONSE_VALUE = PacketType.RESPONSE_AUTH ∧ (id : Int) = 0) := by
        intro hc
        exact absurd hc.1 (by decide)
      rw [if_neg hna, if_pos rfl]
      simp only [hget]
      rw [if_neg (fun hfb => hns pl (List.mem_cons_self pl ps) hfb.symm)]
    simp only [List.map_cons, dispatchAll, hstep]
    rw [ih a (mapSet q id ⟨d ++ pl⟩) id (d ++ pl) hid
      (mapGet_mapSet_self q id ⟨d ++ pl⟩)
      (fun p hp => hns p (List.mem_cons_of_mem pl hp))]
    simp [mapSet_mapSet, List.append_assoc]

/-- C1 (amended: for every pending command id other than -1): dispatching N
RESPONSE_VALUE packets with a pending id whose payloads all differ from the
sentinel marker, followed by one whose payload equals the marker, resolves
the caller with the concatenation of the N payloads in arrival order (text
decoding is the identity on the modelled bytes) and removes the pending
entry; the authentication slot is untouched and no other completion is
delivered. -/
theorem sentinel_resolves_with_concatenation (a : Option PromiseState) (q : ReqMap)
    (id : Int) (ps : List (List Nat))
    (hid : id ≠ -1)
    (hget : mapGet q id = some ⟨[]⟩)
    (hns : ∀ p ∈ ps, p ≠ FrameBuffer) :
    dispatchAll a q (ps.map (fun pl => Packet.mk id PacketType.RESPONSE_VALUE pl) ++
        [Packet.mk id PacketType.RESPONSE_VALUE FrameBuffer]) =
      ⟨a, mapDelete q id, [Event.requestResolved id ps.flatten]⟩ := by
  rw [dispatchAll_append, dispatchAll_fragments ps a q id [] hid hget hns]
  simp only [List.nil_append]
  have hna : ¬((Packet.mk id PacketType.RESPONSE_VALUE FrameBuffer).type =
      PacketType.RESPONSE_AUTH ∧
      (Packet.mk id PacketType.RESPONSE_VALUE FrameBuffer).id = 0) := by
    intro hc
    simp [PacketType.RESPONSE_VALUE, PacketType.RESPONSE_AUTH] at hc
  have hsent : dispatch a (mapSet q id ⟨ps.flatten⟩)
      (Packet.mk id PacketType.RESPONSE_VALUE FrameBuffer) =
      ⟨a, mapDelete (mapSet q id ⟨ps.flatten⟩) id,
        [Event.requestResolved id ps.flatten]⟩ := by
    unfold dispatch
    rw [if_pos hid, if_neg hna, if_pos rfl]
    simp [mapGet_mapSet_self]
  simp only [dispatchAll, hsent, mapDelete_mapSet]
  simp

/-- C1 fails as stated at the pending id -1: with a pending entry under id
-1 and N = 0, the sentinel packet is routed to the authentication-rejection
branch, so the entry is neither resolved nor removed and the caller is not
resolved. -/
theorem sentinel_neg_one_id_counterexample :
    mapGet [((-1 : Int), (⟨[]⟩ : Request))] (-1) = some ⟨[]⟩ ∧
    dispatchAll (some PromiseState.pending) [((-1 : Int), (⟨[]⟩ : Request))]
      (([] : List (List Nat)).map (fun pl => Packet.mk (-1) PacketType.RESPONSE_VALUE pl) ++
        [Packet.mk (-1) PacketType.RESPONSE_VALUE FrameBuffer]) =
      ⟨some (PromiseState.rejectedP RconError.badPassword), [((-1 : Int), (⟨[]⟩ : Request))],
        [Event.authRejected RconError.badPassword]⟩ ∧
    ¬(dispatchAll (some PromiseState.pending) [((-1 : Int), (⟨[]⟩ : Request))]
      (([] : List (List Nat)).map (fun pl => Packet.mk (-1) PacketType.RESPONSE_VALUE pl) ++
        [Packet.mk (-1) PacketType.RESPONSE_VALUE FrameBuffer]) =
      ⟨some PromiseState.pending, mapDelete [((-1 : Int), (⟨[]⟩ : Request))] (-1),
        [Event.requestResolved (-1) ([] : List (List Nat)).flatten]⟩) := by
  decide

/-- Witness for C1 at a concrete pending id and three fragments. -/
theorem sentinel_resolves_with_concatenation_witness :
    dispatchAll none [((5 : Int), (⟨[]⟩ : Request))]
      (([[1], [2, 3], [4]] : List (List Nat)).map
          (fun pl => Packet.mk 5 PacketType.RESPONSE_VALUE pl) ++
        [Packet.mk 5 PacketType.RESPONSE_VALUE FrameBuffer]) =
      ⟨none, mapDelete [((5 : Int), (⟨[]⟩ : Request))] 5,
        [Event.requestResolved 5 ([[1], [2, 3], [4]] : List (List Nat)).flatten]⟩ :=
  sentinel_resolves_with_concatenation none [((5 : Int), (⟨[]⟩ : Request))] 5
    [[1], [2, 3], [4]] (by decide) (by decide) (by decide)

/-- C6: a packet whose id is -1, whatever its type and payload, rejects the
pending authentication slot with the bad-password error, emits nothing
else, and leaves the pending-request map exactly as it was. -/
theorem id_neg_one_rejects_auth_only (q : ReqMap) (p : Packet) (hp : p.id = -1) :
    dispatch (some PromiseState.pending) q p =
      ⟨some (PromiseState.rejectedP RconError.badPassword), q,
        [Event.authRejected RconError.badPassword]⟩ := by
  unfold dispatch
  rw [hp]
  simp [rejectAuth]

/-- Witness for C6 at a concrete non-RESPONSE_VALUE packet and a nonempty
pending map. -/
theorem id_neg_one_rejects_auth_only_witness :
    dispatch (some PromiseState.pending) [((2 : Int), (⟨[4]⟩ : Request))] ⟨-1, 3, [9]⟩ =
      ⟨some (PromiseState.rejectedP RconError.badPassword), [((2 : Int), (⟨[4]⟩ : Request))],
        [Event.authRejected RconError.badPassword]⟩ :=
  id_neg_one_rejects_auth_only [((2 : Int), (⟨[4]⟩ : Request))] ⟨-1, 3, [9]⟩ rfl

/-- C9: a packet whose id is neither -1 nor an auth response at id 0, and
that matches no pending entry, is silently dropped: the authentication slot
and the pending map are returned unchanged and no completion is
delivered (readChunk likewise never touches the transport handle). -/
theorem unknown_id_dispatch_noop (a : Option PromiseState) (q : ReqMap) (p : Packet)
    (h1 : p.id ≠ -1) (h2 : ¬(p.type = PacketType.RESPONSE_AUTH ∧ p.id = 0))
    (h3 : mapGet q p.id = none) :
    dispatch a q p = ⟨a, q, []⟩ := by
  unfold dispatch
  rw [if_pos h1, if_neg h2]
  by_cases ht : p.type = PacketType.RESPONSE_VALUE
  · rw [if_pos ht]
    simp [h3]
  · rw [if_neg ht]

/-- Witness for C9 at a concrete unknown id. -/
theorem unknown_id_dispatch_noop_witness :
    dispatch (some PromiseState.pending) [((2 : Int), (⟨[]⟩ : Request))] ⟨7, 0, [1]⟩ =
      ⟨some PromiseState.pending, [((2 : Int), (⟨[]⟩ : Request))], []⟩ :=
  unknown_id_dispatch_noop (some PromiseState.pending) [((2 : Int), (⟨[]⟩ : Request))]
    ⟨7, 0, [1]⟩ (by decide) (by decide) (by decide)

/-- The encoded frame, reassociated to expose each field as the head of a
suffix. -/
theorem sendDataBuffer_assoc (id type : Int) (payload : List Nat) :
    sendDataBuffer id payload type =
      int32LE ((payload.length : Int) + 10) ++
        (int32LE id ++ (int32LE type ++ (payload ++ [0, 0]))) := by
  simp [sendDataBuffer, List.append_assoc]

/-- The encoded frame is payload length + 14 bytes. -/
theorem sendDataBuffer_length (id type : Int) (payload : List Nat) :
    (sendDataBuffer id payload type).length = payload.length + 14 := by
  simp only [sendDataBuffer, List.length_append, int32LE_length, List.length_cons,
    List.length_nil]
  omega

/-- The bytes from offset 4 of the encoded frame. -/
theorem sendDataBuffer_drop4 (id type : Int) (payload : List Nat) :
    (sendDataBuffer id payload type).drop 4 =
      int32LE id ++ (int32LE type ++ (payload ++ [0, 0])) := by
  rw [sendDataBuffer_assoc]
  exact List.drop_left' (int32LE_length _)

/-- The bytes from offset 8 of the encoded frame. -/
theorem sendDataBuffer_drop8 (id type : Int) (payload : List Nat) :
    (sendDataBuffer id payload type).drop 8 = int32LE type ++ (payload ++ [0, 0]) := by
  rw [sendDataBuffer_assoc, ← List.append_assoc]
  exact List.drop_left' (by simp [List.length_append, int32LE_length])

/-- The bytes from offset 12 of the encoded frame. -/
theorem sendDataBuffer_drop12 (id type : Int) (payload : List Nat) :
    (sendDataBuffer id payload type).drop 12 = payload ++ [0, 0] := by
  rw [sendDataBuffer_assoc, ← List.append_assoc, ← List.append_assoc]
  exact List.drop_left' (by simp [List.length_append, int32LE_length])

/-- The trailing bytes of the encoded frame after the payload. -/
theorem sendDataBuffer_terminator (id type : Int) (payload : List Nat) :
    (sendDataBuffer id payload type).drop (payload.length + 12) = [0, 0] := by
  show (((int32LE ((payload.length : Int) + 10) ++ int32LE id ++ int32LE type ++ payload)
      ++ [0, 0]).drop (payload.length + 12)) = [0, 0]
  exact List.drop_left' (by simp [List.length_append, int32LE_length]; omega)

/-- C4: the encoder produces a frame of payload length + 14 bytes whose
little-endian length field decodes to payload length + 10, with the id
bytes at offset 4 (decoding back to the id), the type at offset 8, the raw
payload at offset 12, and two trailing zero bytes. -/
theorem sendData_frame_layout (id type : Int) (payload : List Nat)
    (hid1 : -2147483648 ≤ id) (hid2 : id < 2147483648)
    (ht1 : -2147483648 ≤ type) (ht2 : type < 2147483648)
    (hlen : (payload.length : Int) + 10 < 2147483648) :
    (sendDataBuffer id payload type).length = payload.length + 14 ∧
    getInt32? (sendDataBuffer id payload type) = some ((payload.length : Int) + 10) ∧
    ((sendDataBuffer id payload type).drop 4).take 4 = int32LE id ∧
    getInt32? ((sendDataBuffer id payload type).drop 4) = some id ∧
    getInt32? ((sendDataBuffer id payload type).drop 8) = some type ∧
    ((sendDataBuffer id payload type).drop 12).take payload.length = payload ∧
    (sendDataBuffer id payload type).drop (payload.length + 12) = [0, 0] := by
  refine ⟨sendDataBuffer_length id type payload, ?_, ?_, ?_, ?_, ?_,
    sendDataBuffer_terminator id type payload⟩
  · rw [sendDataBuffer_assoc]
    exact getInt32?_int32LE _ _ (by omega) hlen
  · rw [sendDataBuffer_drop4]
    exact List.take_left' (int32LE_length id)
  · rw [sendDataBuffer_drop4]
    exact getInt32?_int32LE id _ hid1 hid2
  · rw [sendDataBuffer_drop8]
    exact getInt32?_int32LE type _ ht1 ht2
  · rw [sendDataBuffer_drop12]
    exact List.take_left' rfl

/-- Witness for C4 at a one-byte payload. -/
theorem sendData_frame_layout_witness :
    (sendDataBuffer 1 [65] 2).length = 1 + 14 ∧
    getInt32? (sendDataBuffer 1 [65] 2) = some (((1 : Nat) : Int) + 10) ∧
    ((sendDataBuffer 1 [65] 2).drop 4).take 4 = int32LE 1 ∧
    getInt32? ((sendDataBuffer 1 [65] 2).drop 4) = some 1 ∧
    getInt32? ((sendDataBuffer 1 [65] 2).drop 8) = some 2 ∧
    ((sendDataBuffer 1 [65] 2).drop 12).take 1 = [65] ∧
    (sendDataBuffer 1 [65] 2).drop (1 + 12) = [0, 0] :=
  sendData_frame_layout 1 2 [65] (by decide) (by decide) (by decide) (by decide) (by decide)

/-- C2: decoding the encoding of any in-range (id, payload, type) triple
yields exactly the one packet with those fields, consuming the whole
buffer: no carry-over remains and no error is raised. -/
theorem decode_encode_roundtrip (id type : Int) (payload : List Nat)
    (hid1 : -2147483648 ≤ id) (hid2 : id < 2147483648)
    (ht1 : -2147483648 ≤ type) (ht2 : type < 2147483648)
    (hlen : (payload.length : Int) + 10 < 2147483648) :
    reassemble (sendDataBuffer id payload type) =
      ⟨[⟨id, type, payload⟩], none, false⟩ := by
  have hL : getInt32? (sendDataBuffer id payload type) =
      some ((payload.length : Int) + 10) := by
    rw [sendDataBuffer_assoc]
    exact getInt32?_int32LE _ _ (by omega) hlen
  have hlenOf : lenOf (sendDataBuffer id payload type) = (payload.length : Int) + 10 := by
    rw [lenOf, hL]
    rfl
  have hwf : WFFrame (sendDataBuffer id payload type) := by
    refine ⟨?_, ?_, ?_⟩
    · rw [hL, hlenOf]
    · rw [hlenOf]
      omega
    · rw [hlenOf, sendDataBuffer_length]
      push_cast
      omega
  have h1 : getInt32? ((sendDataBuffer id payload type).drop 4) = some id := by
    rw [sendDataBuffer_drop4]
    exact getInt32?_int32LE id _ hid1 hid2
  have h2 : getInt32? ((sendDataBuffer id payload type).drop 8) = some type := by
    rw [sendDataBuffer_drop8]
    exact getInt32?_int32LE type _ ht1 ht2
  have h3 : ((sendDataBuffer id payload type).drop 12).take payload.length = payload := by
    rw [sendDataBuffer_drop12]
    exact List.take_left' rfl
  have hfp : framePacket (sendDataBuffer id payload type) = ⟨id, type, payload⟩ := by
    rw [framePacket, hlenOf]
    simp [decodePacket, h1, h2, h3]
  have h := reassemble_flatten [sendDataBuffer id payload type]
    (by intro f hf; simp only [List.mem_cons, List.not_mem_nil, or_false] at hf; rw [hf]; exact hwf)
  simp only [List.flatten_cons, List.flatten_nil, List.append_nil, List.map_cons,
    List.map_nil] at h
  rw [h, hfp]

/-- Witness for C2 at a negative id and a two-byte payload. -/
theorem decode_encode_roundtrip_witness :
    reassemble (sendDataBuffer (-7) [72, 105] 0) =
      ⟨[⟨-7, 0, [72, 105]⟩], none, false⟩ :=
  decode_encode_roundtrip (-7) 0 [72, 105] (by decide) (by decide) (by decide) (by decide)
    (by decide)

/-- C5 (amended): when the working buffer (carried-over bytes plus the new
chunk) begins with a zero length prefix, readChunk stops processing with no
packet decoded and no completion delivered, but the unconsumed bytes are
DISCARDED, not retained: the carry-over buffer is left unset (src/rcon.ts
line 144 returns after the carry-over was already cleared at lines
136-139). -/
theorem readChunk_zero_prefix_discards (s : RconState) (chunk : List Nat)
    (h : getInt32? (s.outstandingData.getD [] ++ chunk) = some 0) :
    readChunk s chunk = ⟨⟨s.authed, s.conn, none, s.requests⟩, [], [], false⟩ := by
  have hne : ¬(s.outstandingData.getD [] ++ chunk = []) := by
    intro hd
    rw [hd] at h
    simp [getInt32?] at h
  obtain ⟨n, hn⟩ : ∃ n, (s.outstandingData.getD [] ++ chunk).length = n + 1 := by
    rcases hlen : (s.outstandingData.getD [] ++ chunk).length with _ | n
    · exact absurd (List.length_eq_zero.mp hlen) hne
    · exact ⟨n, rfl⟩
  simp only [readChunk, hn, readChunkLoopF, hne, if_false, h, if_pos rfl]
  simp

/-- C5 fails as stated: a zero length prefix leaves the carry-over buffer
empty; the unconsumed bytes [0, 0, 0, 0, 9] are not retained. -/
theorem zero_prefix_retention_counterexample :
    (readChunk ⟨some PromiseState.pending, some 7, none, [((3 : Int), (⟨[]⟩ : Request))]⟩
        [0, 0, 0, 0, 9]).state.outstandingData = none ∧
    (none : Option (List Nat)) ≠ some [0, 0, 0, 0, 9] := by
  decide

/-- Witness for the amended C5 at a concrete zero-prefixed chunk. -/
theorem readChunk_zero_prefix_discards_witness :
    readChunk ⟨some PromiseState.pending, some 7, none, [((3 : Int), (⟨[]⟩ : Request))]⟩
        [0, 0, 0, 0, 9] =
      ⟨⟨some PromiseState.pending, some 7, none, [((3 : Int), (⟨[]⟩ : Request))]⟩,
        [], [], false⟩ :=
  readChunk_zero_prefix_discards
    ⟨some PromiseState.pending, some 7, none, [((3 : Int), (⟨[]⟩ : Request))]⟩
    [0, 0, 0, 0, 9] (by decide)

/-- C7 (amended): at teardown every pending command request is rejected
(with the generic read EOF error for an explicit disconnect, with the
connection-closed error for read-loop teardown) and the pending map is
left empty; the read-loop teardown also rejects a pending authentication
future with the connection-closed error, whereas disconnect drops the
authentication future without settling it. -/
theorem teardown_behavior (s : RconState) (c : Nat)
    (hconn : s.conn = some c) (hauth : s.authed = some PromiseState.pending) :
    (disconnect s).1.requests = [] ∧
    (disconnect s).1.conn = none ∧
    (disconnect s).1.authed = none ∧
    (disconnect s).2 =
      s.requests.map (fun kv => Event.requestRejected kv.1 RconError.readEOF) ∧
    (∀ e ∈ (disconnect s).2, ¬∃ err, e = Event.authRejected err) ∧
    (readTeardown s c).1.requests = [] ∧
    (readTeardown s c).1.conn = none ∧
    (readTeardown s c).1.authed = none ∧
    (readTeardown s c).2 = Event.authRejected RconError.connectionClosed ::
      s.requests.map (fun kv => Event.requestRejected kv.1 RconError.connectionClosed) := by
  refine ⟨rfl, rfl, rfl, rfl, ?_, ?_, ?_, ?_, ?_⟩
  · intro e he
    simp only [disconnect] at he
    obtain ⟨kv, _, rfl⟩ := List.mem_map.mp he
    rintro ⟨err, herr⟩
    cases herr
  · simp [readTeardown, hconn]
  · simp [readTeardown, hconn]
  · simp [readTeardown, hconn]
  · simp [readTeardown, hconn, hauth, rejectAuth]

/-- C7 fails as stated for explicit disconnect: with a pending
authentication future and two outstanding commands, disconnect rejects the
two commands with the read EOF error and clears the map, but never rejects
the authentication future with the connection-closed error. -/
theorem disconnect_auth_counterexample :
    (disconnect ⟨some PromiseState.pending, some 3, none,
        [((1 : Int), (⟨[]⟩ : Request)), ((2 : Int), (⟨[]⟩ : Request))]⟩).2 =
      [Event.requestRejected 1 RconError.readEOF,
        Event.requestRejected 2 RconError.readEOF] ∧
    (disconnect ⟨some PromiseState.pending, some 3, none,
        [((1 : Int), (⟨[]⟩ : Request)), ((2 : Int), (⟨[]⟩ : Request))]⟩).1.authed = none ∧
    Event.authRejected RconError.connectionClosed ∉
      (disconnect ⟨some PromiseState.pending, some 3, none,
        [((1 : Int), (⟨[]⟩ : Request)), ((2 : Int), (⟨[]⟩ : Request))]⟩).2 := by
  decide

/-- Witness for the amended C7 with two outstanding commands. -/
theorem teardown_behavior_witness :
    (disconnect ⟨some PromiseState.pending, some 3, none,
        [((1 : Int), (⟨[]⟩ : Request)), ((2 : Int), (⟨[]⟩ : Request))]⟩).1.requests = [] ∧
    (disconnect ⟨some PromiseState.pending, some 3, none,
        [((1 : Int), (⟨[]⟩ : Request)), ((2 : Int), (⟨[]⟩ : Request))]⟩).1.conn = none ∧
    (disconnect ⟨some PromiseState.pending, some 3, none,
        [((1 : Int), (⟨[]⟩ : Request)), ((2 : Int), (⟨[]⟩ : Request))]⟩).1.authed = none ∧
    (disconnect ⟨some PromiseState.pending, some 3, none,
        [((1 : Int), (⟨[]⟩ : Request)), ((2 : Int), (⟨[]⟩ : Request))]⟩).2 =
      ([((1 : Int), (⟨[]⟩ : Request)), ((2 : Int), (⟨[]⟩ : Request))]).map
        (fun kv => Event.requestRejected kv.1 RconError.readEOF) ∧
    (∀ e ∈ (disconnect ⟨some PromiseState.pending, some 3, none,
        [((1 : Int), (⟨[]⟩ : Request)), ((2 : Int), (⟨[]⟩ : Request))]⟩).2,
      ¬∃ err, e = Event.authRejected err) ∧
    (readTeardown ⟨some PromiseState.pending, some 3, none,
        [((1 : Int), (⟨[]⟩ : Request)), ((2 : Int), (⟨[]⟩ : Request))]⟩ 3).1.requests = [] ∧
    (readTeardown ⟨some PromiseState.pending, some 3, none,
        [((1 : Int), (⟨[]⟩ : Request)), ((2 : Int), (⟨[]⟩ : Request))]⟩ 3).1.conn = none ∧
    (readTeardown ⟨some PromiseState.pending, some 3, none,
        [((1 : Int), (⟨[]⟩ : Request)), ((2 : Int), (⟨[]⟩ : Request))]⟩ 3).1.authed = none ∧
    (readTeardown ⟨some PromiseState.pending, some 3, none,
        [((1 : Int), (⟨[]⟩ : Request)), ((2 : Int), (⟨[]⟩ : Request))]⟩ 3).2 =
      Event.authRejected RconError.connectionClosed ::
        ([((1 : Int), (⟨[]⟩ : Request)), ((2 : Int), (⟨[]⟩ : Request))]).map
          (fun kv => Event.requestRejected kv.1 RconError.connectionClosed) :=
  teardown_behavior
    ⟨some PromiseState.pending, some 3, none,
      [((1 : Int), (⟨[]⟩ : Request)), ((2 : Int), (⟨[]⟩ : Request))]⟩ 3 rfl rfl

/-- C8: a write failure during send rejects exactly the just-registered
pending entry with the caught error, leaving the transport handle, the
authentication slot, the carry-over buffer and every other pending entry
untouched; the entry itself stays in the map. -/
theorem send_write_failure_isolated (s : RconState) (idN : Int) (e : RconError) :
    (send s idN (some e)).2 = [Event.requestRejected idN e] ∧
    (send s idN (some e)).1.conn = s.conn ∧
    (send s idN (some e)).1.authed = s.authed ∧
    (send s idN (some e)).1.outstandingData = s.outstandingData ∧
    (send s idN (some e)).1.requests = mapSet s.requests idN ⟨[]⟩ ∧
    (∀ k, k ≠ idN → mapGet (send s idN (some e)).1.requests k = mapGet s.requests k) := by
  have hm : mapGet (mapSet s.requests idN ⟨[]⟩) idN = some ⟨[]⟩ :=
    mapGet_mapSet_self s.requests idN ⟨[]⟩
  refine ⟨?_, ?_, ?_, ?_, ?_, ?_⟩
  · simp [send, sendRegister, sendWriteFailure, hm]
  · simp [send, sendRegister, sendWriteFailure, hm]
  · simp [send, sendRegister, sendWriteFailure, hm]
  · simp [send, sendRegister, sendWriteFailure, hm]
  · simp [send, sendRegister, sendWriteFailure, hm]
  · intro k hk
    simp only [send, sendRegister, sendWriteFailure, hm]
    exact mapGet_mapSet_ne s.requests idN k ⟨[]⟩ (fun hh => hk hh.symm)

/-- Witness for C8 at a concrete state with another outstanding request. -/
theorem send_write_failure_isolated_witness :
    (send ⟨some PromiseState.resolvedP, some 4, none, [((9 : Int), (⟨[1]⟩ : Request))]⟩
        5 (some (RconError.writeFailed 0))).2 =
      [Event.requestRejected 5 (RconError.writeFailed 0)] ∧
    (send ⟨some PromiseState.resolvedP, some 4, none, [((9 : Int), (⟨[1]⟩ : Request))]⟩
        5 (some (RconError.writeFailed 0))).1.conn =
      (⟨some PromiseState.resolvedP, some 4, none,
        [((9 : Int), (⟨[1]⟩ : Request))]⟩ : RconState).conn ∧
    (send ⟨some PromiseState.resolvedP, some 4, none, [((9 : Int), (⟨[1]⟩ : Request))]⟩
        5 (some (RconError.writeFailed 0))).1.authed =
      (⟨some PromiseState.resolvedP, some 4, none,
        [((9 : Int), (⟨[1]⟩ : Request))]⟩ : RconState).authed ∧
    (send ⟨some PromiseState.resolvedP, some 4, none, [((9 : Int), (⟨[1]⟩ : Request))]⟩
        5 (some (RconError.writeFailed 0))).1.outstandingData =
      (⟨some PromiseState.resolvedP, some 4, none,
        [((9 : Int), (⟨[1]⟩ : Request))]⟩ : RconState).outstandingData ∧
    (send ⟨some PromiseState.resolvedP, some 4, none, [((9 : Int), (⟨[1]⟩ : Request))]⟩
        5 (some (RconError.writeFailed 0))).1.requests =
      mapSet [((9 : Int), (⟨[1]⟩ : Request))] 5 ⟨[]⟩ ∧
    (∀ k, k ≠ (5 : Int) →
      mapGet (send ⟨some PromiseState.resolvedP, some 4, none,
          [((9 : Int), (⟨[1]⟩ : Request))]⟩ 5 (some (RconError.writeFailed 0))).1.requests k =
        mapGet [((9 : Int), (⟨[1]⟩ : Request))] k) :=
  send_write_failure_isolated
    ⟨some PromiseState.resolvedP, some 4, none, [((9 : Int), (⟨[1]⟩ : Request))]⟩ 5
    (RconError.writeFailed 0)

/-- C10: the generated request id (four random bytes read as a little-endian
signed 32-bit integer) ranges over the whole signed 32-bit range, 0 and -1
included: every such value is realised by some byte quadruple; and any
packet arriving with id -1 is routed to the authentication-rejection branch,
so the pending map is untouched, no pending command is ever resolved by it
(sentinel payload or not), and a pending authentication slot is rejected
with the bad-password error. -/
theorem random_id_range_and_neg_one_routing :
    (∀ v : Int, -2147483648 ≤ v → v < 2147483648 →
      ∃ b : List Nat, b.length = 4 ∧ (∀ x ∈ b, x < 256) ∧ getInt32? b = some v) ∧
    (∀ (a : Option PromiseState) (q : ReqMap) (p : Packet), p.id = -1 →
      (dispatch a q p).requests = q ∧
      (∀ i t, Event.requestResolved i t ∉ (dispatch a q p).events) ∧
      (a = some PromiseState.pending →
        (dispatch a q p).authed = some (PromiseState.rejectedP RconError.badPassword) ∧
        (dispatch a q p).events = [Event.authRejected RconError.badPassword])) := by
  constructor
  · intro v h1 h2
    refine ⟨int32LE v, int32LE_length v, int32LE_bytes_lt v, ?_⟩
    simpa using getInt32?_int32LE v [] h1 h2
  · intro a q p hp
    unfold dispatch
    rw [hp]
    rcases a with _ | st
    · simp [rejectAuth]
    · rcases st <;> simp [rejectAuth]

/-- Witness for C10: byte quadruples decoding to -1 and to 0 exist, and a
concrete id -1 packet carrying the sentinel payload for a pending entry at
id -1 leaves the map untouched, resolves nothing and rejects the pending
authentication slot. -/
theorem random_id_range_and_neg_one_routing_witness :
    (∃ b : List Nat, b.length = 4 ∧ (∀ x ∈ b, x < 256) ∧ getInt32? b = some (-1)) ∧
    (∃ b : List Nat, b.length = 4 ∧ (∀ x ∈ b, x < 256) ∧ getInt32? b = some 0) ∧
    (dispatch (some PromiseState.pending) [((-1 : Int), (⟨[]⟩ : Request))]
        ⟨-1, 0, [0, 1, 0, 0]⟩).requests = [((-1 : Int), (⟨[]⟩ : Request))] ∧
    Event.requestResolved (-1) [] ∉ (dispatch (some PromiseState.pending)
        [((-1 : Int), (⟨[]⟩ : Request))] ⟨-1, 0, [0, 1, 0, 0]⟩).events ∧
    (dispatch (some PromiseState.pending) [((-1 : Int), (⟨[]⟩ : Request))]
        ⟨-1, 0, [0, 1, 0, 0]⟩).authed =
      some (PromiseState.rejectedP RconError.badPassword) := by
  refine ⟨random_id_range_and_neg_one_routing.1 (-1) (by decide) (by decide),
    random_id_range_and_neg_one_routing.1 0 (by decide) (by decide), ?_, ?_, ?_⟩
  · exact (random_id_range_and_neg_one_routing.2 _ _ _ rfl).1
  · exact (random_id_range_and_neg_one_routing.2 _ _ _ rfl).2.1 (-1) []
  · exact ((random_id_range_and_neg_one_routing.2 _ _ _ rfl).2.2 rfl).1

/-- C3 (amended): for a byte stream that is a concatenation of well-formed
frames and any chunking of it on which the reassembler never reads past a
nonempty working buffer (the feed reports no error), feeding the chunks one
at a time dispatches exactly the packet sequence of feeding the whole
stream as one chunk: nothing lost, duplicated or reordered.  (Splits that
leave one to three bytes after a decoded frame make the loop read past the
exact buffer - the counterexample - so the restriction is necessary.) -/
theorem chunk_boundary_independence (frames chunks : List (List Nat)) (s : RconState)
    (hwf : ∀ f ∈ frames, WFFrame f)
    (hout : s.outstandingData = none)
    (hsplit : chunks.flatten = frames.flatten)
    (herr : (feedChunks s chunks).err = false) :
    (feedChunks s chunks).pkts = (feedChunks s [frames.flatten]).pkts := by
  obtain ⟨hp, hb, he⟩ := feedChunks_pure chunks s
  obtain ⟨hp2, hb2, he2⟩ := feedChunks_pure [frames.flatten] s
  rw [hout] at hp he hp2
  have herrP : (feedAllPure (optOf []) chunks).err = false := by
    rw [optOf_nil, ← he]
    exact herr
  have hL := feedAllPure_frames chunks frames [] hwf (Or.inl rfl)
    (by simpa using hsplit) herrP
  rw [optOf_nil] at hL
  have hR : (feedAllPure none [frames.flatten]).pkts = frames.map framePacket := by
    rw [feedAllPure_cons]
    have h1 : feedOnePure none frames.flatten = reassemble frames.flatten := rfl
    rw [h1, reassemble_flatten frames hwf]
    simp [feedAllPure]
  rw [hp, hp2, hL, hR]

/-- C3 fails as stated: splitting two well-formed 14-byte frames so that
the first chunk ends two bytes into the second frame makes the loop read a
length past its two-byte working buffer; the first feed dispatches one
packet and stops, the whole-stream feed dispatches two. -/
theorem chunk_boundary_counterexample :
    ([[10, 0, 0, 0, 1, 0, 0, 0, 0, 0, 0, 0, 0, 0, 10, 0],
        [0, 0, 1, 0, 0, 0, 0, 0, 0, 0, 0, 0]] : List (List Nat)).flatten =
      [10, 0, 0, 0, 1, 0, 0, 0, 0, 0, 0, 0, 0, 0,
        10, 0, 0, 0, 1, 0, 0, 0, 0, 0, 0, 0, 0, 0] ∧
    (feedChunks ⟨none, some 0, none, []⟩
        [[10, 0, 0, 0, 1, 0, 0, 0, 0, 0, 0, 0, 0, 0, 10, 0],
          [0, 0, 1, 0, 0, 0, 0, 0, 0, 0, 0, 0]]).pkts ≠
      (feedChunks ⟨none, some 0, none, []⟩
        [[10, 0, 0, 0, 1, 0, 0, 0, 0, 0, 0, 0, 0, 0,
          10, 0, 0, 0, 1, 0, 0, 0, 0, 0, 0, 0, 0, 0]]).pkts := by
  decide

/-- Witness for the amended C3: a split of the same two frames four bytes
into the second frame raises no error and dispatches the same two packets
as the whole stream. -/
theorem chunk_boundary_independence_witness :
    (feedChunks ⟨none, some 0, none, []⟩
        [[10, 0, 0, 0, 1, 0, 0, 0, 0, 0, 0, 0, 0, 0, 10, 0, 0, 0],
          [1, 0, 0, 0, 0, 0, 0, 0, 0, 0]]).pkts =
      (feedChunks ⟨none, some 0, none, []⟩
        [([[10, 0, 0, 0, 1, 0, 0, 0, 0, 0, 0, 0, 0, 0],
            [10, 0, 0, 0, 1, 0, 0, 0, 0, 0, 0, 0, 0, 0]] : List (List Nat)).flatten]).pkts :=
  chunk_boundary_independence
    [[10, 0, 0, 0, 1, 0, 0, 0, 0, 0, 0, 0, 0, 0],
      [10, 0, 0, 0, 1, 0, 0, 0, 0, 0, 0, 0, 0, 0]]
    [[10, 0, 0, 0, 1, 0, 0, 0, 0, 0, 0, 0, 0, 0, 10, 0, 0, 0],
      [1, 0, 0, 0, 0, 0, 0, 0, 0, 0]]
    ⟨none, some 0, none, []⟩ (by decide) rfl (by decide) (by decide)
